import Mathlib

/-!
Shallow embedding of the AI Tool Selection Assistant (Streamlit/pandas app,
files `app.py`, `app_auto_detect.py`, `app_with_catalogue.py`, `app (1).py`).

Cells of a pandas column are modelled as `Option String`: `none` is a missing
value (NaN), `some s` a string cell.  All string primitives (lower-casing,
whitespace stripping, substring search, splitting) are re-implemented on
`List Char` so that every definition evaluates by kernel reduction.
-/

/-- ASCII lower-casing of a character, as done by `str.lower()` on the
ASCII alias/header strings appearing in the app. -/
def lowerChar (c : Char) : Char :=
  if 'A' ≤ c && c ≤ 'Z' then Char.ofNat (c.toNat + 32) else c

/-- Lower-case every character of a string. -/
def lowerStr (s : String) : String :=
  String.mk (s.data.map lowerChar)

/-- Whitespace recognised by `str.strip()` on the app's ASCII headers. -/
def isSpaceChar (c : Char) : Bool :=
  c == ' ' || c == '\t' || c == '\n' || c == '\r'

/-- Drop leading and trailing whitespace from a character list. -/
def stripList (cs : List Char) : List Char :=
  ((cs.dropWhile isSpaceChar).reverse.dropWhile isSpaceChar).reverse

/-- Python `str.strip()`: drop leading and trailing whitespace. -/
def strip (s : String) : String :=
  String.mk (stripList s.data)

/-- Predicate `startsWith pat l` is true when `pat` is an initial segment of `l`. -/
def startsWith : List Char → List Char → Bool
  | [], _ => true
  | _ :: _, [] => false
  | p :: ps, c :: cs => p == c && startsWith ps cs

/-- Predicate `occursIn pat l` is true when `pat` occurs contiguously inside `l`
(Python's `pat in l` / `Series.str.contains` without regex metacharacters). -/
def occursIn (pat : List Char) : List Char → Bool
  | [] => startsWith pat []
  | c :: cs => startsWith pat (c :: cs) || occursIn pat cs

/-- Case-insensitive substring containment:
`Series.str.contains(pat, case=False, na=False)` on a string cell. -/
def containsCI (hay pat : String) : Bool :=
  occursIn (pat.data.map lowerChar) (hay.data.map lowerChar)

/-- The part of `l` strictly before the first occurrence of `sep`
(`l` itself when `sep` does not occur): Python's `l.split(sep)[0]`. -/
def takeUntilSep (sep : List Char) : List Char → List Char
  | [] => []
  | c :: cs => if startsWith sep (c :: cs) then [] else c :: takeUntilSep sep cs

/-- One row of the demo tool catalogue (`DEMO_CATALOGUE` / `tool_details`). -/
structure CatalogueEntry where
  tool : String
  type : String
  features : String
  strengths : String
  limitations : String
  pricing : String
  link : String
deriving Repr, DecidableEq

/-- The five-row demo catalogue, `DEMO_CATALOGUE` in `app.py` (identical in
`app_auto_detect.py`, `app_with_catalogue.py` and `app (1).py`). -/
def DEMO_CATALOGUE : List CatalogueEntry :=
  [⟨"ChatGPT", "LLM Assistant", "Chatbot, content gen", "Versatile",
    "No real-time data", "Freemium", "https://chatgpt.com/"⟩,
   ⟨"MidJourney", "Image Generation AI", "Image gen", "High quality",
    "Subscription", "Subscription", "https://www.midjourney.com/"⟩,
   ⟨"UiPath", "RPA", "Automation", "Scalable",
    "Complex setup", "Enterprise", "https://www.uipath.com/"⟩,
   ⟨"Figma AI", "Creative/Design AI", "Design, prototyping", "User-friendly",
    "Limited advanced features", "Freemium", "https://www.figma.com/ai/"⟩,
   ⟨"Canva AI", "Creative/Design AI", "Graphic design", "Easy to use",
    "Less technical", "Freemium", "https://www.canva.com/ai/"⟩]

/-- Step-1 strict filter of `app.py` line 184: rows whose `Type` equals the
selected type and whose `Pricing` contains the cost tier case-insensitively. -/
def strictMatches (cat : List CatalogueEntry) (t cost : String) : List CatalogueEntry :=
  cat.filter (fun e => e.type == t && containsCI e.pricing cost)

/-- Type-only filter of `app.py` line 189 (the relaxed fallback set). -/
def typeMatches (cat : List CatalogueEntry) (t : String) : List CatalogueEntry :=
  cat.filter (fun e => e.type == t)

/-- Variable `matches` of `app.py` lines 184-189: the strict filter, replaced by the
type-only filter when the strict result is empty. -/
def matchesResult (cat : List CatalogueEntry) (t cost : String) : List CatalogueEntry :=
  let m := strictMatches cat t cost
  if m.isEmpty then typeMatches cat t else m

/-- C1. On the fixed five-row catalogue, matching type "RPA" with cost tier
"Subscription" gives an empty strict result (UiPath's pricing "Enterprise"
does not contain "Subscription"), so the relaxed type-only fallback fires and
the final result is exactly the single UiPath row. -/
theorem C1_rpa_subscription_relaxed_to_uipath :
    strictMatches DEMO_CATALOGUE "RPA" "Subscription" = [] ∧
    matchesResult DEMO_CATALOGUE "RPA" "Subscription" = typeMatches DEMO_CATALOGUE "RPA" ∧
    matchesResult DEMO_CATALOGUE "RPA" "Subscription" =
      [⟨"UiPath", "RPA", "Automation", "Scalable",
        "Complex setup", "Enterprise", "https://www.uipath.com/"⟩] := by
  refine ⟨rfl, rfl, rfl⟩

/-- One fold step of Python's `max(scores, key=scores.get)`: the current best
is replaced only when a later entry's score is strictly greater, so the first
entry attaining the maximum survives.  Scores are the 1-5 slider values. -/
def maxStep (best y : String × Nat) : String × Nat :=
  if best.2 < y.2 then y else best

/-- Recommender `best_tool = max(scores, key=scores.get) if scores else None`
(`app.py` line 202), with `scores` an association list in catalogue
iteration order (Python dicts iterate in insertion order). -/
def best_tool : List (String × Nat) → Option String
  | [] => none
  | x :: xs => some (xs.foldl maxStep x).1

theorem foldl_maxStep_keep (acc : String × Nat) :
    ∀ post : List (String × Nat), (∀ p ∈ post, p.2 ≤ acc.2) →
      post.foldl maxStep acc = acc := by
  intro post
  induction post with
  | nil => intro _; rfl
  | cons y ys ih =>
    intro h
    have hy : y.2 ≤ acc.2 := h y (List.mem_cons_self y ys)
    have hstep : maxStep acc y = acc := by
      simp [maxStep, Nat.not_lt.mpr hy]
    rw [List.foldl_cons, hstep]
    exact ih fun p hp => h p (List.mem_cons_of_mem y hp)

theorem foldl_maxStep_first_max (x : String × Nat) :
    ∀ (pre : List (String × Nat)) (acc : String × Nat)
      (post : List (String × Nat)),
      acc.2 < x.2 → (∀ p ∈ pre, p.2 < x.2) → (∀ p ∈ post, p.2 ≤ x.2) →
      (pre ++ x :: post).foldl maxStep acc = x := by
  intro pre
  induction pre with
  | nil =>
    intro acc post hacc _ hpost
    have hstep : maxStep acc x = x := by simp [maxStep, hacc]
    rw [List.nil_append, List.foldl_cons, hstep]
    exact foldl_maxStep_keep x post hpost
  | cons q qs ih =>
    intro acc post hacc hpre hpost
    rw [List.cons_append, List.foldl_cons]
    have hq : q.2 < x.2 := hpre q (List.mem_cons_self q qs)
    have hacc' : (maxStep acc q).2 < x.2 := by
      by_cases h : acc.2 < q.2 <;> simp [maxStep, h, hq, hacc]
    exact ih (maxStep acc q) post hacc'
      (fun p hp => hpre p (List.mem_cons_of_mem q hp)) hpost

/-- C2. The recommender returns the first tool (in catalogue iteration order)
attaining the maximum score: for any score list split as `pre ++ x :: post`
where everything before `x` scores strictly below `x` and nothing scores above
`x`, the winner is `x`; in particular on
`[(ChatGPT, 4), (MidJourney, 4)]` it returns ChatGPT. -/
theorem C2_best_tool_first_max :
    (∀ (pre : List (String × Nat)) (x : String × Nat)
       (post : List (String × Nat)),
       (∀ p ∈ pre, p.2 < x.2) → (∀ p ∈ post, p.2 ≤ x.2) →
       best_tool (pre ++ x :: post) = some x.1) ∧
    best_tool [("ChatGPT", 4), ("MidJourney", 4)] = some "ChatGPT" := by
  constructor
  · intro pre x post hpre hpost
    cases pre with
    | nil =>
      show some ((post.foldl maxStep x).1) = some x.1
      rw [foldl_maxStep_keep x post hpost]
    | cons q qs =>
      show some (((qs ++ x :: post).foldl maxStep q).1) = some x.1
      rw [foldl_maxStep_first_max x qs q post
        (hpre q (List.mem_cons_self q qs))
        (fun p hp => hpre p (List.mem_cons_of_mem q hp)) hpost]
  · rfl

/-- C2 witness: on the concrete list `[(A, 3), (B, 5), (C, 5)]` the first
maximal entry `B` wins. -/
theorem C2_best_tool_first_max_witness :
    best_tool [("A", 3), ("B", 5), ("C", 5)] = some "B" :=
  C2_best_tool_first_max.1 [("A", 3)] ("B", 5) [("C", 5)]
    (by decide) (by decide)

/-- C9. Every row of the final match result has the selected type, whichever
branch produced it, and the strict (type and cost) result is a subset of the
relaxed type-only result. -/
theorem C9_match_type_invariant :
    ∀ (cat : List CatalogueEntry) (t cost : String),
      (∀ e ∈ matchesResult cat t cost, e.type = t) ∧
      strictMatches cat t cost ⊆ typeMatches cat t := by
  intro cat t cost
  constructor
  · intro e he
    by_cases h : (strictMatches cat t cost).isEmpty
    · rw [matchesResult, if_pos h] at he
      have := (List.mem_filter.mp he).2
      exact eq_of_beq this
    · rw [matchesResult, if_neg h] at he
      have := (List.mem_filter.mp he).2
      exact eq_of_beq (Bool.and_elim_left this)
  · intro e he
    have h := List.mem_filter.mp he
    exact List.mem_filter.mpr ⟨h.1, Bool.and_elim_left h.2⟩

/-- C9 witness: the UiPath row of the relaxed "RPA"/"Subscription" result has
type "RPA", and the ChatGPT row of the strict "LLM Assistant"/"Freemium"
result is in the type-only result. -/
theorem C9_match_type_invariant_witness :
    (⟨"UiPath", "RPA", "Automation", "Scalable", "Complex setup",
      "Enterprise", "https://www.uipath.com/"⟩ : CatalogueEntry).type = "RPA" ∧
    (⟨"ChatGPT", "LLM Assistant", "Chatbot, content gen", "Versatile",
      "No real-time data", "Freemium", "https://chatgpt.com/"⟩ : CatalogueEntry) ∈
      typeMatches DEMO_CATALOGUE "LLM Assistant" :=
  ⟨(C9_match_type_invariant DEMO_CATALOGUE "RPA" "Subscription").1 _ (by decide),
   (C9_match_type_invariant DEMO_CATALOGUE "LLM Assistant" "Freemium").2 (by decide)⟩

/-- A pandas DataFrame, modelled as a row count (the index length) and a list
of named columns; duplicate column names are representable, as in pandas. -/
structure Table where
  nrows : Nat
  cols : List (String × List (Option String))
deriving Repr, DecidableEq

/-- The fixed alias table of `app.py` lines 40-63 (`rename_map`, identical in
`app_auto_detect.py` lines 17-37): lower-cased alias to canonical header. -/
def rename_map_table : List (String × String) :=
  [("business function", "Business Functions"),
   ("business functions", "Business Functions"),
   ("function", "Business Functions"),
   ("dept", "Business Functions"),
   ("department", "Business Functions"),
   ("function area", "Business Functions"),
   ("biz function", "Business Functions"),
   ("business function activities", "Business Function Activities"),
   ("business activities", "Business Function Activities"),
   ("activity", "Business Function Activities"),
   ("activities", "Business Function Activities"),
   ("process step", "Business Function Activities"),
   ("task", "Business Function Activities"),
   ("ai tool type", "AI Tool Type"),
   ("ai tool types", "AI Tool Type"),
   ("ai type", "AI Tool Type"),
   ("tool type", "AI Tool Type"),
   ("ai category", "AI Tool Type"),
   ("ai tool category", "AI Tool Type")]

/-- The three canonical headers (`REQUIRED` in `app_auto_detect.py`, the
ensure-present loop of `app.py` line 67). -/
def REQUIRED : List String :=
  ["Business Functions", "Business Function Activities", "AI Tool Type"]

/-- Lookup `rename_map.get(c.lower(), c)` applied to an already-stripped header. -/
def renameHeader (c : String) : String :=
  (rename_map_table.lookup (lowerStr c)).getD c

/-- The per-header effect of `normalize_and_rename_columns` on a kept column:
strip whitespace, then rename through the alias table. -/
def normalizeHeader (h : String) : String :=
  renameHeader (strip h)

/-- Whether a header matches the placeholder regex `^Unnamed` with
`case=False` (`app.py` line 37). -/
def isUnnamed (h : String) : Bool :=
  startsWith "unnamed".data (h.data.map lowerChar)

/-- Columns surviving the placeholder drop of `app.py` line 37. -/
def keptCols (t : Table) : List (String × List (Option String)) :=
  t.cols.filter (fun c => !(isUnnamed c.1))

/-- The drop / strip / rename phase (`app.py` lines 37-64); this is the whole
of `normalize_and_rename_columns` in `app_auto_detect.py` (lines 12-39),
which has no ensure-present step. -/
def renamePhase (t : Table) : List (String × List (Option String)) :=
  (keptCols t).map (fun c => (normalizeHeader c.1, c.2))

/-- Append column `r` filled with empty strings unless a column named `r` is
already present: one iteration of the loop at `app.py` lines 67-69. -/
def addIfMissing (n : Nat) (cols : List (String × List (Option String)))
    (r : String) : List (String × List (Option String)) :=
  if cols.any (fun c => c.1 == r) then cols
  else cols ++ [(r, List.replicate n (some ""))]

/-- The ensure-present loop of `app.py` lines 66-69. -/
def ensureRequired (n : Nat) (cols : List (String × List (Option String))) :
    List (String × List (Option String)) :=
  REQUIRED.foldl (addIfMissing n) cols

/-- Function `normalize_and_rename_columns` of `app.py` lines 33-71: drop placeholder
columns, strip and rename headers, then synthesize missing required columns
as all-empty.  The row count (pandas index) is unchanged. -/
def normalize_and_rename_columns (t : Table) : Table :=
  ⟨t.nrows, ensureRequired t.nrows (renamePhase t)⟩

theorem rename_lookup_self :
    ∀ p ∈ rename_map_table, rename_map_table.lookup p.1 = some p.2 := by
  decide

/-- C3 counterexample: the header " Foo " matches no alias, yet the
normalizer does not pass it through unchanged — it strips the surrounding
whitespace, returning "Foo". -/
theorem C3_unmatched_header_changed :
    rename_map_table.lookup (lowerStr (strip " Foo ")) = none ∧
    normalizeHeader " Foo " ≠ " Foo " := by
  decide

/-- C3 (amended). Every alias in the fixed table — and any variant of it
differing only in letter case or leading/trailing whitespace — is mapped to
its canonical header; a header matching no alias passes through with only its
leading/trailing whitespace stripped (not fully unchanged). -/
theorem C3_alias_normalization :
    (∀ p ∈ rename_map_table,
      ∀ h : String, lowerStr (strip h) = p.1 → normalizeHeader h = p.2) ∧
    (∀ h : String,
      rename_map_table.lookup (lowerStr (strip h)) = none →
        normalizeHeader h = strip h) := by
  constructor
  · intro p hp h hh
    show renameHeader (strip h) = p.2
    rw [renameHeader, hh, rename_lookup_self p hp]
    rfl
  · intro h hnone
    show renameHeader (strip h) = strip h
    rw [renameHeader, hnone]
    rfl

/-- C3 witness: the variant " DEPT " of alias "dept" maps to
"Business Functions", and the non-alias "Foo" passes through stripped. -/
theorem C3_alias_normalization_witness :
    normalizeHeader " DEPT " = "Business Functions" ∧
    normalizeHeader "Foo" = "Foo" :=
  ⟨C3_alias_normalization.1 ("dept", "Business Functions") (by decide)
      " DEPT " (by decide),
   C3_alias_normalization.2 "Foo" (by decide)⟩

/-- A table whose two headers "Dept" and "Function" both normalize to the
canonical "Business Functions". -/
def dupHeaderTable : Table :=
  ⟨1, [("Dept", [some "IT"]), ("Function", [some "Ops"])]⟩

/-- C5 counterexample: with input headers "Dept" and "Function" (both aliases
of "Business Functions") the normalizer keeps BOTH columns under the
canonical name — the output has two "Business Functions" columns carrying
the first and the second input column's data, not exactly one last-wins
column. -/
theorem C5_duplicate_headers_both_kept :
    ((normalize_and_rename_columns dupHeaderTable).cols.filter
        (fun p => p.1 == "Business Functions")).map Prod.snd =
      [[some "IT"], [some "Ops"]] ∧
    ((normalize_and_rename_columns dupHeaderTable).cols.filter
        (fun p => p.1 == "Business Functions")).length ≠ 1 := by
  decide

theorem addIfMissing_filter_of_any (n : Nat)
    (cols : List (String × List (Option String))) (r c : String)
    (hc : cols.any (fun p => p.1 == c) = true) :
    (addIfMissing n cols r).filter (fun p => p.1 == c) =
      cols.filter (fun p => p.1 == c) ∧
    (addIfMissing n cols r).any (fun p => p.1 == c) = true := by
  rw [addIfMissing]
  by_cases h : cols.any (fun c => c.1 == r) = true
  · rw [if_pos h]
    exact ⟨rfl, hc⟩
  · rw [if_neg h]
    have hrc : (r == c) = false := by
      cases heq : r == c with
      | false => rfl
      | true =>
        rw [eq_of_beq heq] at h
        exact absurd hc h
    constructor
    · rw [List.filter_append]
      have : ([(r, List.replicate n (some ""))].filter
          (fun p => p.1 == c)) = [] := by
        simp [List.filter, hrc]
      rw [this, List.append_nil]
    · rw [List.any_append, hc, Bool.true_or]

theorem ensureRequired_filter_of_any (n : Nat)
    (cols : List (String × List (Option String))) (c : String)
    (hc : cols.any (fun p => p.1 == c) = true) :
    (ensureRequired n cols).filter (fun p => p.1 == c) =
      cols.filter (fun p => p.1 == c) := by
  have h1 := addIfMissing_filter_of_any n cols "Business Functions" c hc
  have h2 := addIfMissing_filter_of_any n _ "Business Function Activities" c h1.2
  have h3 := addIfMissing_filter_of_any n _ "AI Tool Type" c h2.2
  show (addIfMissing n (addIfMissing n (addIfMissing n cols
      "Business Functions") "Business Function Activities")
      "AI Tool Type").filter (fun p => p.1 == c) = _
  rw [h3.1, h2.1, h1.1]

/-- C5 (amended). When one or more input headers normalize to the same
canonical name, the normalizer keeps every such column: the output columns
bearing that canonical name are exactly the renamed input columns bearing it,
in input order with data intact (so two matching input headers yield two
canonical columns, not a single last-wins column). -/
theorem C5_duplicate_headers_all_kept :
    ∀ (t : Table) (c : String),
      (renamePhase t).any (fun p => p.1 == c) = true →
      (normalize_and_rename_columns t).cols.filter (fun p => p.1 == c) =
        (renamePhase t).filter (fun p => p.1 == c) := by
  intro t c hc
  exact ensureRequired_filter_of_any t.nrows (renamePhase t) c hc

/-- C5 witness: on the duplicate-alias table the output's
"Business Functions" columns are exactly the two renamed input columns. -/
theorem C5_duplicate_headers_all_kept_witness :
    (normalize_and_rename_columns dupHeaderTable).cols.filter
        (fun p => p.1 == "Business Functions") =
      (renamePhase dupHeaderTable).filter
        (fun p => p.1 == "Business Functions") :=
  C5_duplicate_headers_all_kept dupHeaderTable "Business Functions" (by decide)

theorem addIfMissing_absent (n : Nat)
    (cols : List (String × List (Option String))) (r c : String)
    (hc : cols.any (fun p => p.1 == c) = false) (hrc : (r == c) = false) :
    (addIfMissing n cols r).any (fun p => p.1 == c) = false := by
  rw [addIfMissing]
  by_cases h : cols.any (fun c => c.1 == r) = true
  · rw [if_pos h]
    exact hc
  · rw [if_neg h, List.any_append, hc, Bool.false_or]
    simp [hrc]

theorem addIfMissing_appends (n : Nat)
    (cols : List (String × List (Option String))) (c : String)
    (hc : cols.any (fun p => p.1 == c) = false) :
    (addIfMissing n cols c).filter (fun p => p.1 == c) =
      [(c, List.replicate n (some ""))] ∧
    (addIfMissing n cols c).any (fun p => p.1 == c) = true := by
  rw [addIfMissing, if_neg (by rw [hc]; exact Bool.false_ne_true)]
  have hnil : cols.filter (fun p => p.1 == c) = [] := by
    rw [List.filter_eq_nil_iff]
    intro a ha hca
    have h2 : cols.any (fun p => p.1 == c) = true :=
      List.any_eq_true.mpr ⟨a, ha, hca⟩
    rw [hc] at h2
    exact Bool.false_ne_true h2
  constructor
  · rw [List.filter_append, hnil, List.nil_append]
    simp [List.filter]
  · rw [List.any_append, hc, Bool.false_or]
    simp

theorem normalize_filter_all_empty (t : Table) (c : String)
    (hf : (normalize_and_rename_columns t).cols.filter (fun p => p.1 == c) =
      [(c, List.replicate t.nrows (some ""))]) :
    ∀ p ∈ (normalize_and_rename_columns t).cols, p.1 = c →
      ∀ x ∈ p.2, x = some "" := by
  intro p hp hpc x hx
  have hmem : p ∈ (normalize_and_rename_columns t).cols.filter
      (fun p => p.1 == c) :=
    List.mem_filter.mpr ⟨hp, by rw [hpc]; simp⟩
  rw [hf, List.mem_singleton] at hmem
  rw [hmem] at hx
  exact List.eq_of_mem_replicate hx

/-- C6. When no kept input header normalizes to a required canonical name,
the normalizer (a total function, so no exception) returns a table containing
exactly one column with that canonical name, filled with the empty string in
every row. -/
theorem C6_missing_canonical_synthesized_empty :
    ∀ (t : Table) (c : String), c ∈ REQUIRED →
      (renamePhase t).any (fun p => p.1 == c) = false →
      (normalize_and_rename_columns t).cols.filter (fun p => p.1 == c) =
          [(c, List.replicate t.nrows (some ""))] ∧
        ∀ p ∈ (normalize_and_rename_columns t).cols, p.1 = c →
          ∀ x ∈ p.2, x = some "" := by
  intro t c hcR habs
  have hshow : (normalize_and_rename_columns t).cols =
      addIfMissing t.nrows (addIfMissing t.nrows (addIfMissing t.nrows
        (renamePhase t) "Business Functions") "Business Function Activities")
        "AI Tool Type" := rfl
  simp only [REQUIRED, List.mem_cons, List.mem_singleton,
    List.not_mem_nil, or_false] at hcR
  rcases hcR with rfl | rfl | rfl
  · have h1 := addIfMissing_appends t.nrows (renamePhase t)
      "Business Functions" habs
    have h2 := addIfMissing_filter_of_any t.nrows _
      "Business Function Activities" _ h1.2
    have h3 := addIfMissing_filter_of_any t.nrows _ "AI Tool Type" _ h2.2
    have hf : (normalize_and_rename_columns t).cols.filter
        (fun p => p.1 == "Business Functions") =
        [("Business Functions", List.replicate t.nrows (some ""))] := by
      rw [hshow, h3.1, h2.1, h1.1]
    exact ⟨hf, normalize_filter_all_empty t _ hf⟩
  · have h1 := addIfMissing_absent t.nrows (renamePhase t)
      "Business Functions" _ habs (by decide)
    have h2 := addIfMissing_appends t.nrows _
      "Business Function Activities" h1
    have h3 := addIfMissing_filter_of_any t.nrows _ "AI Tool Type" _ h2.2
    have hf : (normalize_and_rename_columns t).cols.filter
        (fun p => p.1 == "Business Function Activities") =
        [("Business Function Activities",
          List.replicate t.nrows (some ""))] := by
      rw [hshow, h3.1, h2.1]
    exact ⟨hf, normalize_filter_all_empty t _ hf⟩
  · have h1 := addIfMissing_absent t.nrows (renamePhase t)
      "Business Functions" _ habs (by decide)
    have h2 := addIfMissing_absent t.nrows _
      "Business Function Activities" _ h1 (by decide)
    have h3 := addIfMissing_appends t.nrows _ "AI Tool Type" h2
    have hf : (normalize_and_rename_columns t).cols.filter
        (fun p => p.1 == "AI Tool Type") =
        [("AI Tool Type", List.replicate t.nrows (some ""))] := by
      rw [hshow, h3.1]
    exact ⟨hf, normalize_filter_all_empty t _ hf⟩

/-- C6 witness: a one-column, two-row table with only a "Dept" column gets a
synthesized all-empty "Business Function Activities" column. -/
theorem C6_missing_canonical_synthesized_empty_witness :
    (normalize_and_rename_columns
        ⟨2, [("Dept", [some "IT", some "HR"])]⟩).cols.filter
        (fun p => p.1 == "Business Function Activities") =
      [("Business Function Activities", List.replicate 2 (some ""))] :=
  (C6_missing_canonical_synthesized_empty
    ⟨2, [("Dept", [some "IT", some "HR"])]⟩
    "Business Function Activities" (by decide) (by decide)).1

/-- C8. On a table whose headers are already exactly the three canonical
names, `normalize_and_rename_columns` is the identity: nothing is dropped
(the canonical names are not placeholders), stripping and renaming fix each
canonical name, and no column is synthesized — so normalization is
idempotent on its own output for such tables. -/
theorem C8_normalize_noop_on_canonical (t : Table)
    (h : t.cols.map Prod.fst = REQUIRED) :
    normalize_and_rename_columns t = t := by
  obtain ⟨n, cols⟩ := t
  simp only [REQUIRED] at h
  cases cols with
  | nil => simp at h
  | cons c1 rest1 =>
    cases rest1 with
    | nil => simp at h
    | cons c2 rest2 =>
      cases rest2 with
      | nil => simp at h
      | cons c3 rest3 =>
        cases rest3 with
        | cons c4 rest4 => simp at h
        | nil =>
          obtain ⟨a1, d1⟩ := c1
          obtain ⟨a2, d2⟩ := c2
          obtain ⟨a3, d3⟩ := c3
          simp only [List.map_cons, List.map_nil, List.cons.injEq,
            and_true] at h
          obtain ⟨h1, h2, h3⟩ := h
          subst h1
          subst h2
          subst h3
          rfl

/-- C8 witness: a concrete canonical-headed table is returned unchanged. -/
theorem C8_normalize_noop_on_canonical_witness :
    normalize_and_rename_columns
        ⟨1, [("Business Functions", [some "Finance"]),
             ("Business Function Activities", [some "Reporting"]),
             ("AI Tool Type", [some "LLM Assistant"])]⟩ =
      ⟨1, [("Business Functions", [some "Finance"]),
           ("Business Function Activities", [some "Reporting"]),
           ("AI Tool Type", [some "LLM Assistant"])]⟩ :=
  C8_normalize_noop_on_canonical _ (by decide)

/-- Function `normalize_and_rename_columns` of `app_auto_detect.py` lines 12-39: the
same drop / strip / rename phase, with no ensure-present step. -/
def normalize_auto (t : Table) : Table :=
  ⟨t.nrows, renamePhase t⟩

/-- The qualification test of `app_auto_detect.py` lines 49-51: after
normalization, all three required columns are present. -/
def sheetQualifies (raw : Table) : Bool :=
  REQUIRED.all (fun c => (normalize_auto raw).cols.any (fun p => p.1 == c))

/-- Cast `astype(str)` on one cell: pandas renders a missing value as "nan". -/
def cellAsStr : Option String → Option String
  | none => some "nan"
  | some s => some s

/-- Lines 53-54 of `app_auto_detect.py`: cast the required columns of a
qualifying sheet to strings. -/
def astypeRequired (t : Table) : Table :=
  ⟨t.nrows, t.cols.map (fun c =>
    if REQUIRED.contains c.1 then (c.1, c.2.map cellAsStr) else c)⟩

/-- The scan loop of `load_matching_sheet` (`app_auto_detect.py` lines
48-55): first sheet, in source iteration order, whose normalized headers
contain all required columns. -/
def findMatchingSheet : List (String × Table) → Option (Table × String)
  | [] => none
  | (name, raw) :: rest =>
    if sheetQualifies raw then some (astypeRequired (normalize_auto raw), name)
    else findMatchingSheet rest

/-- Function `load_matching_sheet` of `app_auto_detect.py` lines 41-58: the first
qualifying sheet with status "ok", else the first sheet (normalized) with
status "missing_required_columns".  A workbook always has at least one
sheet; on the impossible empty workbook the model returns `none`. -/
def load_matching_sheet (sheets : List (String × Table)) :
    Option (Table × String × String) :=
  match findMatchingSheet sheets with
  | some (df, name) => some (df, name, "ok")
  | none =>
    match sheets with
    | [] => none
    | (n, t) :: _ => some (normalize_auto t, n, "missing_required_columns")

/-- The caller's status check of `app_auto_detect.py` lines 93-96: on status
"missing_required_columns" the script stops before any selection widget. -/
def halts_before_selection (status : String) : Bool :=
  status == "missing_required_columns"

theorem findMatchingSheet_first :
    ∀ (pre : List (String × Table)) (x : String × Table)
      (post : List (String × Table)),
      (∀ q ∈ pre, sheetQualifies q.2 = false) → sheetQualifies x.2 = true →
      findMatchingSheet (pre ++ x :: post) =
        some (astypeRequired (normalize_auto x.2), x.1) := by
  intro pre
  induction pre with
  | nil =>
    intro x post _ hx
    obtain ⟨name, raw⟩ := x
    rw [List.nil_append]
    show (if sheetQualifies raw then _ else _) = _
    rw [if_pos hx]
  | cons q qs ih =>
    intro x post hpre hx
    obtain ⟨qn, qt⟩ := q
    rw [List.cons_append]
    show (if sheetQualifies qt then _ else _) = _
    rw [if_neg (by
      rw [hpre (qn, qt) (List.mem_cons_self _ _)]
      exact Bool.false_ne_true)]
    exact ih x post (fun p hp => hpre p (List.mem_cons_of_mem _ hp)) hx

theorem findMatchingSheet_none :
    ∀ sheets : List (String × Table),
      (∀ q ∈ sheets, sheetQualifies q.2 = false) →
      findMatchingSheet sheets = none := by
  intro sheets
  induction sheets with
  | nil => intro _; rfl
  | cons q qs ih =>
    intro h
    obtain ⟨qn, qt⟩ := q
    show (if sheetQualifies qt then _ else _) = _
    rw [if_neg (by
      rw [h (qn, qt) (List.mem_cons_self _ _)]
      exact Bool.false_ne_true)]
    exact ih fun p hp => h p (List.mem_cons_of_mem _ hp)

/-- C4. The multi-sheet resolver returns the first sheet, in iteration
order, whose normalized headers contain all three canonical columns, with
status "ok"; when no sheet qualifies it returns (rather than raising) the
first sheet with status "missing_required_columns"; and on that status the
caller halts before offering any selection options. -/
theorem C4_load_matching_sheet_resolution :
    (∀ (pre : List (String × Table)) (x : String × Table)
       (post : List (String × Table)),
       (∀ q ∈ pre, sheetQualifies q.2 = false) → sheetQualifies x.2 = true →
       load_matching_sheet (pre ++ x :: post) =
         some (astypeRequired (normalize_auto x.2), x.1, "ok")) ∧
    (∀ (s0 : String × Table) (rest : List (String × Table)),
       (∀ q ∈ s0 :: rest, sheetQualifies q.2 = false) →
       load_matching_sheet (s0 :: rest) =
         some (normalize_auto s0.2, s0.1, "missing_required_columns")) ∧
    halts_before_selection "missing_required_columns" = true := by
  refine ⟨?_, ?_, rfl⟩
  · intro pre x post hpre hx
    rw [load_matching_sheet.eq_def, findMatchingSheet_first pre x post hpre hx]
  · intro s0 rest hall
    obtain ⟨n, t⟩ := s0
    rw [load_matching_sheet.eq_def, findMatchingSheet_none ((n, t) :: rest) hall]

/-- A sheet with no recognizable columns. -/
def unrelatedSheet : Table :=
  ⟨1, [("Foo", [some "x"])]⟩

/-- A sheet that already carries the three canonical columns. -/
def canonicalSheet : Table :=
  ⟨1, [("Business Functions", [some "Finance"]),
       ("Business Function Activities", [some "Reporting"]),
       ("AI Tool Type", [some "LLM Assistant"])]⟩

/-- C4 witness: a two-sheet workbook resolves to the second (first
qualifying) sheet with status "ok", and a workbook with only the unrelated
sheet yields it with status "missing_required_columns". -/
theorem C4_load_matching_sheet_resolution_witness :
    load_matching_sheet
        [("Sheet1", unrelatedSheet), ("Sheet2", canonicalSheet)] =
      some (astypeRequired (normalize_auto canonicalSheet), "Sheet2", "ok") ∧
    load_matching_sheet [("Sheet1", unrelatedSheet)] =
      some (normalize_auto unrelatedSheet, "Sheet1",
        "missing_required_columns") :=
  ⟨C4_load_matching_sheet_resolution.1 [("Sheet1", unrelatedSheet)]
      ("Sheet2", canonicalSheet) [] (by decide) (by decide),
   C4_load_matching_sheet_resolution.2.1 ("Sheet1", unrelatedSheet) []
      (by decide)⟩

/-- Strict lexicographic comparison of character lists by code point:
Python's `<` on strings, the order used by `sorted`. -/
def charListLt : List Char → List Char → Bool
  | _, [] => false
  | [], _ :: _ => true
  | a :: as, b :: bs => decide (a < b) || (decide (a = b) && charListLt as bs)

/-- Python's `<` on strings. -/
def strLtB (a b : String) : Bool :=
  charListLt a.data b.data

/-- Insert into an ascending list, used to model Python's `sorted`. -/
def insertStr (x : String) : List String → List String
  | [] => [x]
  | y :: ys => if strLtB y x then y :: insertStr x ys else x :: y :: ys

/-- Ascending sort by code-point order: Python's `sorted` (on the
duplicate-free lists produced by `.unique()` the ascending order determines
the output uniquely, so any correct sort models it). -/
def sortStrs : List String → List String
  | [] => []
  | x :: xs => insertStr x (sortStrs xs)

/-- Pandas `Series.unique()`: distinct values in order of first appearance. -/
def uniqueFirst (l : List String) : List String :=
  l.foldl (fun acc x => if x ∈ acc then acc else acc ++ [x]) []

/-- Selection `df[name]`: the data of the (first) column called `name`. -/
def colData (t : Table) (name : String) : List (Option String) :=
  match t.cols.find? (fun c => c.1 == name) with
  | some c => c.2
  | none => []

/-- The (function, activity) cell pairs of the taxonomy rows. -/
def taxPairs (t : Table) : List (Option String × Option String) :=
  (colData t "Business Functions").zip
    (colData t "Business Function Activities")

/-- Variable `activities` of `app.py` lines 145-151:
`sorted(df.loc[df[fn] == f, act].dropna().astype(str).unique())`.
Row selection compares each function cell with `some f` (NaN compares
unequal); `dropna` keeps the `some` activity cells (on which `astype(str)`
is the identity); then distinct values, sorted ascending. -/
def activities (t : Table) (f : String) : List String :=
  sortStrs (uniqueFirst
    (((taxPairs t).filter (fun p => p.1 == some f)).filterMap Prod.snd))

theorem strData_inj {a b : String} (h : a.data = b.data) : a = b := by
  cases a
  cases b
  exact congrArg String.mk h

theorem mem_insertStr (x s : String) :
    ∀ l : List String, s ∈ insertStr x l ↔ s = x ∨ s ∈ l := by
  intro l
  induction l with
  | nil => simp [insertStr]
  | cons y ys ih =>
    rw [insertStr]
    by_cases h : strLtB y x = true
    · rw [if_pos h]
      simp only [List.mem_cons, ih]
      tauto
    · rw [if_neg h]
      simp only [List.mem_cons]

theorem mem_sortStrs (s : String) :
    ∀ l : List String, s ∈ sortStrs l ↔ s ∈ l := by
  intro l
  induction l with
  | nil => simp [sortStrs]
  | cons x xs ih =>
    rw [sortStrs, mem_insertStr]
    simp [ih]

theorem mem_foldl_uniqueStep (s : String) :
    ∀ (l acc : List String),
      s ∈ l.foldl (fun acc x => if x ∈ acc then acc else acc ++ [x]) acc ↔
        s ∈ acc ∨ s ∈ l := by
  intro l
  induction l with
  | nil => simp
  | cons x xs ih =>
    intro acc
    rw [List.foldl_cons, ih]
    by_cases h : x ∈ acc
    · rw [if_pos h]
      simp only [List.mem_cons]
      constructor
      · tauto
      · rintro (hs | rfl | hs) <;> tauto
    · rw [if_neg h]
      simp only [List.mem_append, List.mem_singleton, List.mem_cons]
      tauto

theorem mem_uniqueFirst (s : String) (l : List String) :
    s ∈ uniqueFirst l ↔ s ∈ l := by
  rw [uniqueFirst, mem_foldl_uniqueStep]
  simp

theorem nodup_foldl_uniqueStep :
    ∀ (l acc : List String), acc.Nodup →
      (l.foldl (fun acc x => if x ∈ acc then acc else acc ++ [x]) acc).Nodup := by
  intro l
  induction l with
  | nil => intro acc h; exact h
  | cons x xs ih =>
    intro acc hacc
    rw [List.foldl_cons]
    by_cases h : x ∈ acc
    · rw [if_pos h]
      exact ih acc hacc
    · rw [if_neg h]
      refine ih _ ?_
      rw [List.nodup_append]
      exact ⟨hacc, List.nodup_singleton x,
        fun a ha hax => h ((List.mem_singleton.mp hax) ▸ ha)⟩

theorem nodup_uniqueFirst (l : List String) : (uniqueFirst l).Nodup :=
  nodup_foldl_uniqueStep l [] List.nodup_nil

theorem charListLt_trans :
    ∀ (l1 l2 l3 : List Char), charListLt l1 l2 = true →
      charListLt l2 l3 = true → charListLt l1 l3 = true := by
  intro l1
  induction l1 with
  | nil =>
    intro l2 l3 h12 h23
    cases l2 with
    | nil => exact absurd h12 (by simp [charListLt])
    | cons b bs =>
      cases l3 with
      | nil => exact absurd h23 (by simp [charListLt])
      | cons c cs => simp [charListLt]
  | cons a as ih =>
    intro l2 l3 h12 h23
    cases l2 with
    | nil => exact absurd h12 (by simp [charListLt])
    | cons b bs =>
      cases l3 with
      | nil => exact absurd h23 (by simp [charListLt])
      | cons c cs =>
        simp only [charListLt, Bool.or_eq_true, Bool.and_eq_true,
          decide_eq_true_eq] at h12 h23 ⊢
        rcases h12 with hab | ⟨hab, habs⟩
        · rcases h23 with hbc | ⟨hbc, hbcs⟩
          · exact Or.inl (lt_trans hab hbc)
          · exact Or.inl (hbc ▸ hab)
        · rcases h23 with hbc | ⟨hbc, hbcs⟩
          · exact Or.inl (hab ▸ hbc)
          · exact Or.inr ⟨hab.trans hbc, ih bs cs habs hbcs⟩

theorem charListLt_connex :
    ∀ (l1 l2 : List Char), charListLt l1 l2 = false →
      charListLt l2 l1 = true ∨ l1 = l2 := by
  intro l1
  induction l1 with
  | nil =>
    intro l2 h
    cases l2 with
    | nil => exact Or.inr rfl
    | cons b bs => exact absurd h (by simp [charListLt])
  | cons a as ih =>
    intro l2 h
    cases l2 with
    | nil => exact Or.inl (by simp [charListLt])
    | cons b bs =>
      simp only [charListLt, Bool.or_eq_false_iff, Bool.and_eq_false_iff,
        decide_eq_false_iff_not] at h
      obtain ⟨hab, h2⟩ := h
      rcases lt_trichotomy a b with hlt | heq | hgt
      · exact absurd hlt hab
      · subst heq
        rcases h2 with hne | hrec
        · exact absurd (rfl : a = a) hne
        · rcases ih bs hrec with hlt' | heq'
          · exact Or.inl (by simp [charListLt, hlt'])
          · exact Or.inr (by rw [heq'])
      · exact Or.inl (by simp [charListLt, hgt])

theorem pairwise_insertStr (x : String) :
    ∀ l : List String,
      List.Pairwise (fun a b => strLtB a b = true) l → x ∉ l →
      List.Pairwise (fun a b => strLtB a b = true) (insertStr x l) := by
  intro l
  induction l with
  | nil => intro _ _; exact List.pairwise_singleton _ x
  | cons y ys ih =>
    intro hp hx
    rw [List.pairwise_cons] at hp
    obtain ⟨hy, hys⟩ := hp
    rw [insertStr]
    by_cases h : strLtB y x = true
    · rw [if_pos h]
      rw [List.pairwise_cons]
      constructor
      · intro z hz
        rcases (mem_insertStr x z ys).mp hz with rfl | hz'
        · exact h
        · exact hy z hz'
      · exact ih hys (fun hmem => hx (List.mem_cons_of_mem y hmem))
    · rw [if_neg h]
      have hxy : strLtB x y = true := by
        rcases charListLt_connex y.data x.data
            (Bool.eq_false_iff.mpr h) with hlt | heq
        · exact hlt
        · exact absurd (strData_inj heq).symm
            (fun he => hx (he ▸ List.mem_cons_self y ys))
      rw [List.pairwise_cons]
      constructor
      · intro z hz
        rcases List.mem_cons.mp hz with rfl | hz'
        · exact hxy
        · exact charListLt_trans x.data y.data z.data hxy (hy z hz')
      · rw [List.pairwise_cons]
        exact ⟨hy, hys⟩

theorem pairwise_sortStrs :
    ∀ l : List String, l.Nodup →
      List.Pairwise (fun a b => strLtB a b = true) (sortStrs l) := by
  intro l
  induction l with
  | nil => intro _; exact List.Pairwise.nil
  | cons x xs ih =>
    intro hnd
    rw [List.nodup_cons] at hnd
    rw [sortStrs]
    exact pairwise_insertStr x (sortStrs xs) (ih hnd.2)
      (fun hmem => hnd.1 ((mem_sortStrs x xs).mp hmem))

theorem mem_activities_iff (t : Table) (f s : String) :
    s ∈ activities t f ↔ (some f, some s) ∈ taxPairs t := by
  rw [activities, mem_sortStrs, mem_uniqueFirst, List.mem_filterMap]
  constructor
  · rintro ⟨p, hp, hsnd⟩
    have hmem := (List.mem_filter.mp hp).1
    have hfst : p.1 = some f := eq_of_beq (List.mem_filter.mp hp).2
    obtain ⟨p1, p2⟩ := p
    rw [show p1 = some f from hfst, show p2 = some s from hsnd] at hmem
    exact hmem
  · intro hmem
    exact ⟨(some f, some s), List.mem_filter.mpr ⟨hmem, by simp⟩, rfl⟩

/-- A taxonomy whose single row has function "F" and the empty string (not a
missing value) as its activity cell. -/
def emptyActivityTable : Table :=
  ⟨1, [("Business Functions", [some "F"]),
       ("Business Function Activities", [some ""])]⟩

/-- C7 counterexample: the row selection drops only missing (NaN) cells, not
empty strings, so for a row with function "F" and activity "" the option set
is [""] — it contains an empty value, where the claim requires only
non-empty Activity values (here: the empty set). -/
theorem C7_empty_activity_included :
    activities emptyActivityTable "F" = [""] ∧
    ("" : String) ∈ activities emptyActivityTable "F" := by
  refine ⟨by decide, by decide⟩

/-- C7 (amended). For every taxonomy table and function value `f`, the
activity option list is strictly ascending in code-point order (hence
duplicate-free), and its members are exactly the present (non-NaN) activity
values of rows whose function cell equals `f` — empty strings included, only
missing cells are dropped. -/
theorem C7_activities_sorted_distinct :
    ∀ (t : Table) (f : String),
      List.Pairwise (fun a b => strLtB a b = true) (activities t f) ∧
      ∀ s : String, s ∈ activities t f ↔ (some f, some s) ∈ taxPairs t := by
  intro t f
  exact ⟨pairwise_sortStrs _ (nodup_uniqueFirst _),
    fun s => mem_activities_iff t f s⟩

/-- C7 witness: on a concrete two-row taxonomy the option "Audit" is listed
for function "Finance" because the pair is a taxonomy row. -/
theorem C7_activities_sorted_distinct_witness :
    "Audit" ∈ activities
      ⟨2, [("Business Functions", [some "Finance", some "HR"]),
           ("Business Function Activities", [some "Audit", some "Hiring"])]⟩
      "Finance" :=
  ((C7_activities_sorted_distinct
      ⟨2, [("Business Functions", [some "Finance", some "HR"]),
           ("Business Function Activities", [some "Audit", some "Hiring"])]⟩
      "Finance").2 "Audit").mpr (by decide)

/-- The impact lookup of `impact_for_type` (`app.py` lines 73-80). -/
def impact_map : List (String × String) :=
  [("LLM Assistant", "High"), ("Image Generation AI", "High"),
   ("RPA", "Medium"), ("Creative/Design AI", "High")]

/-- Function `impact_for_type` of `app.py` lines 73-80: `mapping.get(t, 'Unknown')`. -/
def impact_for_type (tool_type : String) : String :=
  (impact_map.lookup tool_type).getD "Unknown"

/-- The display label of `app.py` line 164:
the f-string `t + " (Impact: " + impact + ")"`. -/
def typeLabel (t : String) : String :=
  t ++ " (Impact: " ++ impact_for_type t ++ ")"

/-- Assignment `selected_type = selected_type_label.split(" (")[0]` (`app.py` line 166,
`app_auto_detect.py` line 117). -/
def selected_type (label : String) : String :=
  String.mk (takeUntilSep [' ', '('] label.data)

theorem strDataAppend (a b : String) : (a ++ b).data = a.data ++ b.data := by
  cases a
  cases b
  rfl

theorem takeUntilSep_boundary :
    ∀ (l r : List Char), occursIn [' ', '('] l = false →
      takeUntilSep [' ', '('] (l ++ ' ' :: '(' :: r) = l := by
  intro l
  induction l with
  | nil =>
    intro r _
    rw [List.nil_append, takeUntilSep]
    rw [if_pos (by simp [startsWith])]
  | cons c cs ih =>
    intro r h
    simp only [occursIn, Bool.or_eq_false_iff] at h
    obtain ⟨hsw, hrest⟩ := h
    rw [List.cons_append, takeUntilSep]
    have hfalse : startsWith [' ', '(']
        (c :: (cs ++ ' ' :: '(' :: r)) = false := by
      cases cs with
      | nil => simp [startsWith]
      | cons d ds => simpa [startsWith] using hsw
    rw [if_neg (by rw [hfalse]; exact Bool.false_ne_true)]
    exact congrArg (c :: ·) (ih r hrest)

/-- C10. For every tool type string not containing the substring " (", the
display label `t + " (Impact: ...)"` split at the first " (" recovers `t`
exactly — the round-trip the selection step relies on. -/
theorem C10_selected_type_roundtrip :
    ∀ t : String, occursIn [' ', '('] t.data = false →
      selected_type (typeLabel t) = t := by
  intro t h
  have hdata : (typeLabel t).data = t.data ++ ' ' :: '(' ::
      ("Impact: ".data ++ ((impact_for_type t).data ++ ")".data)) := by
    rw [typeLabel]
    simp only [strDataAppend]
    simp [List.append_assoc]
  rw [selected_type, hdata, takeUntilSep_boundary t.data _ h]

/-- C10 witness: the label built from "RPA" splits back to "RPA". -/
theorem C10_selected_type_roundtrip_witness :
    selected_type (typeLabel "RPA") = "RPA" :=
  C10_selected_type_roundtrip "RPA" (by decide)
